import Mathlib

/-!
A shallow embedding of `json-entity` (src/index.js): a declarative
object-projection engine.  An `Entity` is an ordered list of compiled
exposure rules ("properties"); `represent` projects an input record
through the rule list.

JavaScript dynamic values are modelled by the inductive `JSVal`.
User-supplied callables (the `if` predicates and `value` functions,
which in JS are arbitrary closures) are modelled by the small
defunctionalized language `FnCode`: a callable receives `(record,
options)` and returns a value.  Machine floats never matter for the
engine's control flow, so numbers are `Int`.  JS objects are modelled
as insertion-ordered association lists (a JS object has at most one
binding per key; lists built by the engine never duplicate keys).
Errors (`assert` failures and `TypeError`s) are modelled with `Except`.
-/

set_option linter.unusedVariables false

namespace JsonEntity

mutual

/-- A JavaScript value, as far as the engine can observe it. -/
inductive JSVal : Type where
  | undef : JSVal
  | nullV : JSVal
  | boolV : Bool → JSVal
  | numV : Int → JSVal
  | strV : String → JSVal
  | arrV : List JSVal → JSVal
  | objV : List (String × JSVal) → JSVal
  | funcV : FnCode → JSVal
  /-- An `Entity` instance: its single own property is the array
  `properties` of compiled rule objects. -/
  | entityV : List (List (String × JSVal)) → JSVal

/-- Code of a user-supplied callable `(record, options) => …`. -/
inductive FnCode : Type where
  /-- A function that ignores its arguments and returns a constant. -/
  | constFn : JSVal → FnCode
  /-- `(record, options) => record[name]` for an object-valued record. -/
  | getField : String → FnCode

end

/-- A JS object: insertion-ordered association list. -/
abbrev Obj := List (String × JSVal)

/-- Run a callable on `(record, options)`. -/
def applyFn (code : FnCode) (record _options : JSVal) : JSVal :=
  match code, record with
  | .constFn v, _ => v
  | .getField name, .objV fields =>
      (match fields.find? (fun p => p.1 == name) with
       | some p => p.2
       | none => .undef)
  | .getField _, _ => (.undef)

/-- Property read `o[k]` on a JS object: the first binding of `k`,
`undefined` when absent. -/
def olookup (o : Obj) (k : String) : JSVal :=
  match o with
  | [] => .undef
  | (k', v) :: rest => if k' = k then v else olookup rest k

/-- Does the object have an own property `k`? -/
def hasKey (o : Obj) (k : String) : Bool :=
  match o with
  | [] => false
  | (k', _) :: rest => k' == k || hasKey rest k

/-- Property write `o[k] = v`: updates an existing binding in place
(JS objects keep the original insertion position), otherwise appends. -/
def oset (o : Obj) (k : String) (v : JSVal) : Obj :=
  match o with
  | [] => [(k, v)]
  | (k', v') :: rest => if k' = k then (k', v) :: rest else (k', v') :: oset rest k v

/-- The own-property keys of an object, in order. -/
def okeys (o : Obj) : List String := o.map Prod.fst

/-- JS truthiness. -/
def truthy : JSVal → Bool
  | .undef => false
  | .nullV => false
  | .boolV b => b
  | .numV n => n != 0
  | .strV s => s ≠ ""
  | .arrV _ => true
  | .objV _ => true
  | .funcV _ => true
  | .entityV _ => true

/-- Strict-equality test against the absence sentinel `undefined`. -/
def isUndef : JSVal → Bool
  | .undef => true
  | _ => false

/-- lodash `isArray`. -/
def isArray : JSVal → Bool
  | .arrV _ => true
  | _ => false

/-- lodash `isFunction`. -/
def isFunction : JSVal → Bool
  | .funcV _ => true
  | _ => false

/-- lodash `isObject`: anything of JS type object or function, except
`null` (arrays, plain objects, functions, Entity instances). -/
def isObject : JSVal → Bool
  | .arrV _ => true
  | .objV _ => true
  | .funcV _ => true
  | .entityV _ => true
  | _ => false

/-- `Entity.isEntity`: is the value an Entity instance? -/
def isEntity : JSVal → Bool
  | .entityV _ => true
  | _ => false

/-- JS `typeof`. -/
def typeofV : JSVal → String
  | .undef => "undefined"
  | .nullV => "object"
  | .boolV _ => "boolean"
  | .numV _ => "number"
  | .strV _ => "string"
  | .arrV _ => "object"
  | .objV _ => "object"
  | .funcV _ => "function"
  | .entityV _ => "object"

/-- JS `String(v)` coercion as used for property keys and template
literals.  Elements of an array are joined with `","`, rendering
`null`/`undefined` elements as `""`; nested arrays/objects inside an
array are approximated by `"[object Object]"` (every property name
appearing in this development is already a string, so only the `strV`
case is ever exercised by the theorems below). -/
def jsToKey : JSVal → String
  | .undef => "undefined"
  | .nullV => "null"
  | .boolV b => if b then "true" else "false"
  | .numV n => toString n
  | .strV s => s
  | .arrV xs => String.intercalate ","
      (xs.map fun x =>
        match x with
        | .undef => ""
        | .nullV => ""
        | .boolV b => if b then "true" else "false"
        | .numV n => toString n
        | .strV s => s
        | _ => "[object Object]")
  | .objV _ => "[object Object]"
  | .funcV _ => "function"
  | .entityV _ => "[object Object]"

/-- Errors surfaced by the engine: `assert` failures (the spec's
`ConfigurationError`s raised through the `assert` module) and JS
`TypeError`s. -/
inductive JSError : Type where
  | assertionError : String → JSError
  | typeError : String → JSError

/-- The `error` message helper: `` err => `json-entity: ${err}` ``. -/
def errorMsg (err : String) : String := "json-entity: " ++ err

/-- lodash `pick(object, keys)`: a new object holding, in the order of
`keys`, those requested properties that exist on the object. -/
def pick (o : Obj) (keys : List String) : Obj :=
  match keys with
  | [] => []
  | k :: rest => if hasKey o k then (k, olookup o k) :: pick o rest else pick o rest

/-- The option names recognized by `expose` (src/index.js line 88). -/
def recognizedOptions : List String := ["as", "default", "if", "merge", "using", "value"]

/-- The rule object built by `expose` once its validations pass:
`pick` the recognized options, derive the `mode` flag from
`opts.value`, then `Object.assign` the final `as` (alias or current
name, by truthiness) and the source `key` (src/index.js lines 86-103). -/
def exposedRule (property : String) (options : Obj) : Obj :=
  let opts := pick options recognizedOptions
  -- if (opts.value !== undefined) opts.mode = isFunction(opts.value) ? 'fn' : 'val'
  let opts2 := if isUndef (olookup opts "value") then opts
    else oset opts "mode" (.strV (if isFunction (olookup opts "value") then "fn" else "val"))
  -- Object.assign(opts, { as: opts.as || property, key: property })
  let opts3 := oset opts2 "as"
    (if truthy (olookup opts2 "as") then olookup opts2 "as" else .strV property)
  oset opts3 "key" (.strV property)

/-- `Entity.prototype.expose(property, options)`: validate the `if`
and `using` options (`assert` throws exactly when its first argument
is falsy), then push the compiled rule object onto `properties`.
The source builds the rule in place on the object returned by `pick`;
here that construction is factored into `exposedRule`, which starts
from its own `pick` of the same options — `pick` is pure, so the two
picked objects are identical. -/
def expose (properties : List Obj) (property : String) (options : Obj) :
    Except JSError (List Obj) :=
  let opts := pick options recognizedOptions
  if truthy (olookup opts "if") && !isFunction (olookup opts "if") then
    .error (.assertionError (errorMsg "\"if\" must be a function!"))
  else if truthy (olookup opts "using") && !isEntity (olookup opts "using") then
    .error (.assertionError (errorMsg "\"using\" must be an Entity!"))
  else
    .ok (properties ++ [exposedRule property options])

/-- The `opts.key` property access performed by the constructor on a
declaration entry of arbitrary type (non-objects have no `key`). -/
def getOptsKeyProp : JSVal → JSVal
  | .objV fs => olookup fs "key"
  | _ => (.undef)

/-- One iteration of the constructor's inner loop: determine the
effective property name (`opts.key || key`, so an object entry
carrying a truthy `key` overrides the mapping's own key; the name is
coerced to its string form), then dispatch on `typeof opts`
(src/index.js lines 40-66). -/
def compileEntry (properties : List Obj) (key : String) (opts : JSVal) :
    Except JSError (List Obj) :=
  let property := if truthy (getOptsKeyProp opts) then jsToKey (getOptsKeyProp opts) else key
  match opts with
  -- { [property]: true } always exposes; other booleans are skipped
  | .boolV b => if b then expose properties property [] else .ok properties
  -- { [property]: [function] } exposes with a computed value
  | .funcV code => expose properties property [("value", .funcV code)]
  -- typeof null is 'object'; lodash pick(null, …) = {}
  | .nullV => expose properties property []
  -- { [property]: {options} }
  | .objV fs => expose properties property fs
  -- typeof array is 'object'; none of the recognized names is an own key
  | .arrV _ => expose properties property []
  -- typeof Entity instance is 'object'; its own key is `properties`
  | .entityV props => expose properties property [("properties", .arrV (props.map .objV))]
  -- numbers, strings, undefined: TypeError
  | v => .error (.typeError (errorMsg ("unknown options type for property " ++
      (if truthy (getOptsKeyProp v) then jsToKey (getOptsKeyProp v) else key))))

/-- `Object.keys(definition)` together with the corresponding values:
plain objects enumerate their own keys, arrays enumerate string
indices `"0"`, `"1"`, …, strings enumerate their characters, an
Entity instance enumerates its `properties` array, and primitives
enumerate nothing. -/
def defEntries : JSVal → List (String × JSVal)
  | .objV fs => fs
  | .arrV xs => (List.range xs.length).zip xs |>.map fun p => (toString p.1, p.2)
  | .strV s => (List.range s.length).zip (s.data.map fun c => JSVal.strV c.toString)
      |>.map fun p => (toString p.1, p.2)
  | .entityV props => [("properties", .arrV (props.map .objV))]
  | _ => []

/-- Compile the entries of one definition in order. -/
def compileEntries (properties : List Obj) (entries : List (String × JSVal)) :
    Except JSError (List Obj) :=
  match entries with
  | [] => .ok properties
  | (k, opts) :: rest =>
    match compileEntry properties k opts with
    | .error e => .error e
    | .ok props2 => compileEntries props2 rest

/-- Compile one definition argument of the constructor.
`Object.keys(null)`/`Object.keys(undefined)` throw a `TypeError`. -/
def compileDefinition (properties : List Obj) (definition : JSVal) :
    Except JSError (List Obj) :=
  match definition with
  | .undef => .error (.typeError "Cannot convert undefined or null to object")
  | .nullV => .error (.typeError "Cannot convert undefined or null to object")
  | d => compileEntries properties (defEntries d)

/-- Compile the definition arguments in order. -/
def compileDefinitions (properties : List Obj) (definitions : List JSVal) :
    Except JSError (List Obj) :=
  match definitions with
  | [] => .ok properties
  | d :: rest =>
    match compileDefinition properties d with
    | .error e => .error e
    | .ok props2 => compileDefinitions props2 rest

/-- `new Entity(...entityDefinitions)`: start from an empty
`properties` array and compile every definition (src/index.js
lines 33-68).  The result is the new instance's rule list. -/
def newEntity (definitions : List JSVal) : Except JSError (List Obj) :=
  compileDefinitions [] definitions

/-- `Entity.prototype.extend(...entityDefinitions)`:
`new Entity(this.properties, ...entityDefinitions)` — the receiver's
compiled rule array is passed as the first definition argument and is
only read, never written (src/index.js lines 112-114). -/
def extend (properties : List Obj) (definitions : List JSVal) :
    Except JSError (List Obj) :=
  newEntity (JSVal.arrV (properties.map .objV) :: definitions)

/-! ## The projector: `Entity.prototype.represent` -/

/-- Property read `data[key]` on an arbitrary value, as performed when
a rule's `mode` is unset.  Reading a property of `undefined`/`null`
throws a `TypeError`; primitives other than strings have no own
properties; only `length` is modelled on strings and arrays (numeric
index access is never exercised here). -/
def getProp (data : JSVal) (key : String) : Except JSError JSVal :=
  match data with
  | .undef => .error (.typeError ("Cannot read properties of undefined (reading " ++ key ++ ")"))
  | .nullV => .error (.typeError ("Cannot read properties of null (reading " ++ key ++ ")"))
  | .objV fields => .ok (olookup fields key)
  | .entityV props => .ok (if key = "properties" then .arrV (props.map .objV) else .undef)
  | .strV s => .ok (if key = "length" then .numV s.length else .undef)
  | .arrV xs => .ok (if key = "length" then .numV xs.length else .undef)
  | _ => .ok (.undef)

/-- The rule guard `if (opts.if && !opts.if(data, options)) return result`:
a falsy `opts.if` is ignored; a truthy one must be callable (a truthy
non-function would throw a `TypeError` when called) and passes exactly
when its result is truthy (src/index.js line 131). -/
def checkGuard (r : Obj) (data options : JSVal) : Except JSError Bool :=
  let ifv := olookup r "if"
  if truthy ifv then
    match ifv with
    | .funcV code => .ok (truthy (applyFn code data options))
    | _ => .error (.typeError "opts.if is not a function")
  else
    .ok true

/-- The `switch (opts.mode)` value resolution (src/index.js
lines 136-148): `'fn'` calls `opts.value(data, options)` (a non-callable
would throw), `'val'` uses `opts.value` verbatim, anything else reads
`data[opts.key]`. -/
def rawValue (r : Obj) (data options : JSVal) : Except JSError JSVal :=
  match olookup r "mode" with
  | .strV "fn" =>
    (match olookup r "value" with
     | .funcV code => .ok (applyFn code data options)
     | _ => .error (.typeError "opts.value is not a function"))
  | .strV "val" => .ok (olookup r "value")
  | _ => getProp data (jsToKey (olookup r "key"))

/-- Absence handling (src/index.js lines 150-159): when the resolved
value is strictly `undefined`, substitute `opts.default` if that is
set, otherwise skip the rule (`none`). -/
def defaulted (r : Obj) (raw : JSVal) : Option JSVal :=
  if isUndef raw then
    if isUndef (olookup r "default") then none else some (olookup r "default")
  else some raw

/-- The own enumerable properties spread by a merge of a non-array
object value: `Object.keys(val)` with the corresponding values.
Functions have no own enumerable properties; an Entity instance has
exactly `properties`. -/
def objEntries : JSVal → List (String × JSVal)
  | .objV fs => fs
  | .entityV props => [("properties", .arrV (props.map .objV))]
  | _ => []

/-- `Object.keys(val).forEach((key) => { result[key] = val[key] })`. -/
def spreadInto (result : Obj) (entries : List (String × JSVal)) : Obj :=
  entries.foldl (fun res p => oset res p.1 p.2) result

/-- Placement of a resolved value (src/index.js lines 165-181).  With
`merge` truthy: an array value requires the existing slot
`result[opts.as]` to be `undefined` or an array (`assert` otherwise)
and concatenates onto it; a non-array object value spreads its keys
directly into `result`; any other value contributes nothing.  Without
`merge`: plain assignment `result[opts.as] = val`. -/
def placeRule (r : Obj) (val : JSVal) (result : Obj) : Except JSError Obj :=
  if truthy (olookup r "merge") then
    match val with
    | .arrV xs =>
      (match olookup result (jsToKey (olookup r "as")) with
       | .undef => .ok (oset result (jsToKey (olookup r "as")) (.arrV xs))
       | .arrV ys => .ok (oset result (jsToKey (olookup r "as")) (.arrV (ys ++ xs)))
       | _ => .error (.assertionError (errorMsg
           ("attempting to merge array with non-array for property " ++
            jsToKey (olookup r "as") ++ "!"))))
    | _ => if isObject val then .ok (spreadInto result (objEntries val)) else .ok result
  else
    .ok (oset result (jsToKey (olookup r "as")) val)

/-- Any value an object property holds is structurally smaller than
the object (for the termination of `represent`). -/
theorem sizeOf_olookup_lt (o : Obj) (k : String) (h : ¬ olookup o k = JSVal.undef) :
    sizeOf (olookup o k) < sizeOf o := by
  induction o with
  | nil => simp [olookup] at h
  | cons p rest ih =>
    obtain ⟨k', v⟩ := p
    by_cases hk : k' = k
    · simp only [olookup, if_pos hk]
      simp only [List.cons.sizeOf_spec, Prod.mk.sizeOf_spec]
      omega
    · simp only [olookup, if_neg hk]
      simp only [olookup, if_neg hk] at h
      have := ih h
      simp only [List.cons.sizeOf_spec]
      omega

mutual

/-- `Entity.prototype.represent(data, options)` (src/index.js
lines 124-185), acting on a compiled rule list: an array input is
mapped element-wise; otherwise the rule list is reduced in order onto
a fresh output object. -/
def represent (props : List Obj) (data options : JSVal) : Except JSError JSVal :=
  match hd : data with
  | .arrV xs =>
    (match representList props xs options with
     | .error e => .error e
     | .ok ys => .ok (.arrV ys))
  | d =>
    (match representRules props d options [] with
     | .error e => .error e
     | .ok result => .ok (.objV result))
termination_by (sizeOf props, sizeOf data, 2)
decreasing_by
  · subst hd
    apply Prod.Lex.right
    apply Prod.Lex.left
    simp only [JSVal.arrV.sizeOf_spec]
    omega
  · subst hd
    apply Prod.Lex.right
    apply Prod.Lex.right
    omega

/-- `data.map(entity => this.represent(entity, options))`. -/
def representList (props : List Obj) (xs : List JSVal) (options : JSVal) :
    Except JSError (List JSVal) :=
  match xs with
  | [] => .ok []
  | x :: rest =>
    (match represent props x options with
     | .error e => .error e
     | .ok y =>
       (match representList props rest options with
        | .error e => .error e
        | .ok ys => .ok (y :: ys)))
termination_by (sizeOf props, sizeOf xs, 1)
decreasing_by
  · apply Prod.Lex.right
    apply Prod.Lex.left
    simp only [List.cons.sizeOf_spec]
    omega
  · apply Prod.Lex.right
    apply Prod.Lex.left
    simp only [List.cons.sizeOf_spec]
    omega

/-- The `reduce` over the rule list: resolve each rule and place its
value, skipping rules whose guard failed or whose value was absent. -/
def representRules (rules : List Obj) (data options : JSVal) (result : Obj) :
    Except JSError Obj :=
  match rules with
  | [] => .ok result
  | r :: rest =>
    (match resolveRule r data options with
     | .error e => .error e
     | .ok none => representRules rest data options result
     | .ok (some val) =>
       (match placeRule r val result with
        | .error e => .error e
        | .ok result2 => representRules rest data options result2))
termination_by (sizeOf rules, sizeOf data, 1)
decreasing_by
  · apply Prod.Lex.left
    simp only [List.cons.sizeOf_spec]
    omega
  · apply Prod.Lex.left
    simp only [List.cons.sizeOf_spec]
    omega
  · apply Prod.Lex.left
    simp only [List.cons.sizeOf_spec]
    omega

/-- Steps 1-4 of one rule application: guard, `mode` dispatch,
defaulting, then `if (opts.using) val = opts.using.represent(val,
options)` — a truthy `using` must be an Entity (anything else would
throw when its `represent` is called).  Returns `none` when the rule
is skipped. -/
def resolveRule (r : Obj) (data options : JSVal) : Except JSError (Option JSVal) :=
  match checkGuard r data options with
  | .error e => .error e
  | .ok false => .ok none
  | .ok true =>
    (match rawValue r data options with
     | .error e => .error e
     | .ok raw =>
       (match defaulted r raw with
        | none => .ok none
        | some val =>
          (match h : olookup r "using" with
           | .entityV u =>
             (match represent u val options with
              | .error e => .error e
              | .ok v => .ok (some v))
           | uv => if truthy uv then .error (.typeError "opts.using.represent is not a function")
               else .ok (some val))))
termination_by (sizeOf r, sizeOf data, 0)
decreasing_by
  · apply Prod.Lex.left
    have hlt : sizeOf (olookup r "using") < sizeOf r := by
      apply sizeOf_olookup_lt
      rw [h]
      intro hc
      exact JSVal.noConfusion hc
    rw [h] at hlt
    simp only [JSVal.entityV.sizeOf_spec] at hlt
    omega

end

/-! ## Structural equality of rule objects, and well-formed rules

JS deep equality of objects (the `.eql` used by the repository's own
test suite) ignores key insertion order, so equality of rule records is
stated as: same own keys, same value at every key. -/

/-- Two JS objects are structurally equal: same own properties with
the same values. -/
def objEquiv (a b : Obj) : Prop :=
  (∀ k, hasKey a k = hasKey b k) ∧ (∀ k, olookup a k = olookup b k)

/-- Every key a compiled rule object can carry: the recognized options
plus the derived `mode`, `as` and `key` fields. -/
def allowedRuleKeys : List String :=
  ["as", "default", "if", "merge", "using", "value", "mode", "key"]

/-- The invariant satisfied by every rule object that `expose` builds
from a nonempty property name: a nonempty string `key`, an `as` that
is always present and truthy, only allowed keys, validated `if` and
`using`, and a `mode` flag consistent with the stored `value`. -/
def ruleWF (r : Obj) : Bool :=
  (match olookup r "key" with
   | .strV k => k ≠ ""
   | _ => false) &&
  hasKey r "key" && hasKey r "as" &&
  truthy (olookup r "as") &&
  r.all (fun p => allowedRuleKeys.contains p.1) &&
  (!truthy (olookup r "if") || isFunction (olookup r "if")) &&
  (!truthy (olookup r "using") || isEntity (olookup r "using")) &&
  (if isUndef (olookup r "value") then !hasKey r "mode"
   else hasKey r "mode" &&
     (match olookup r "mode" with
      | .strV s => s = (if isFunction (olookup r "value") then "fn" else "val")
      | _ => false))

-- Sanity checks of the compile side on concrete declarations.
example : newEntity [.objV [("id", .boolV true)]] =
    .ok [[("as", .strV "id"), ("key", .strV "id")]] := rfl

example : expose [] "_id" [("as", .strV "id"), ("other", .strV "x")] =
    .ok [[("as", .strV "id"), ("key", .strV "_id")]] := rfl

/-! ## Lemmas about the object operations -/

theorem okeys_cons (k0 : String) (v : JSVal) (rest : Obj) :
    okeys ((k0, v) :: rest) = k0 :: okeys rest := rfl

theorem mem_cons_of_ne {k k0 : String} {ks : List String} (h : ¬ k0 = k) :
    (k ∈ k0 :: ks) ↔ k ∈ ks := by
  simp only [List.mem_cons]
  constructor
  · rintro (hc | hc)
    · exact absurd hc.symm h
    · exact hc
  · exact Or.inr

theorem hasKey_iff_mem_okeys (o : Obj) (k : String) : hasKey o k = true ↔ k ∈ okeys o := by
  induction o with
  | nil => simp [hasKey, okeys]
  | cons p rest ih =>
    obtain ⟨k0, v⟩ := p
    simp only [hasKey, Bool.or_eq_true, beq_iff_eq, ih, okeys_cons, List.mem_cons]
    exact or_congr eq_comm Iff.rfl

theorem olookup_of_hasKey_false {o : Obj} {k : String} (h : hasKey o k = false) :
    olookup o k = .undef := by
  induction o with
  | nil => rfl
  | cons p rest ih =>
    obtain ⟨k0, v⟩ := p
    simp only [hasKey, Bool.or_eq_false_iff] at h
    have hne : ¬ k0 = k := by
      intro hc
      subst hc
      simp at h
    simp only [olookup, if_neg hne]
    exact ih h.2

theorem olookup_oset (o : Obj) (k : String) (v : JSVal) (k' : String) :
    olookup (oset o k v) k' = if k = k' then v else olookup o k' := by
  induction o with
  | nil => simp [oset, olookup]
  | cons p rest ih =>
    obtain ⟨k0, v0⟩ := p
    by_cases h0 : k0 = k
    · subst h0
      simp only [oset, if_pos rfl, olookup]
      by_cases hk : k0 = k' <;> simp [hk]
    · simp only [oset, if_neg h0, olookup]
      by_cases hk : k0 = k'
      · subst hk
        have hne : ¬ k = k0 := fun hc => h0 hc.symm
        simp [hne]
      · simp only [if_neg hk]
        exact ih

theorem hasKey_oset_iff (o : Obj) (k : String) (v : JSVal) (k' : String) :
    hasKey (oset o k v) k' = true ↔ (hasKey o k' = true ∨ k = k') := by
  induction o with
  | nil => simp [oset, hasKey, beq_iff_eq]
  | cons p rest ih =>
    obtain ⟨k0, v0⟩ := p
    by_cases h0 : k0 = k
    · subst h0
      simp only [oset, if_pos rfl, hasKey, Bool.or_eq_true, beq_iff_eq]
      by_cases hk : k0 = k' <;> simp [hk]
    · simp only [oset, if_neg h0, hasKey, Bool.or_eq_true, beq_iff_eq, ih]
      tauto

theorem okeys_oset (o : Obj) (k : String) (v : JSVal) :
    okeys (oset o k v) = if hasKey o k then okeys o else okeys o ++ [k] := by
  induction o with
  | nil => simp [oset, okeys, hasKey]
  | cons p rest ih =>
    obtain ⟨k0, v0⟩ := p
    by_cases h0 : k0 = k
    · subst h0
      simp [oset, okeys_cons, hasKey]
    · have hb : (k0 == k) = false := by simp [h0]
      simp only [oset, if_neg h0, okeys_cons, hasKey, hb, Bool.false_or, ih]
      by_cases hh : hasKey rest k <;> simp [hh]

theorem olookup_pick (o : Obj) (ks : List String) (k : String) :
    olookup (pick o ks) k = if k ∈ ks then olookup o k else .undef := by
  induction ks with
  | nil => simp [pick, olookup]
  | cons k0 ks ih =>
    by_cases hk : k0 = k
    · subst hk
      by_cases hh : hasKey o k0
      · simp [pick, if_pos hh, olookup]
      · have hu : olookup o k0 = .undef := olookup_of_hasKey_false (by simpa using hh)
        simp only [pick, if_neg hh, ih]
        by_cases hm : k0 ∈ ks <;> simp [hm, hu]
    · have hmc : (k ∈ k0 :: ks) ↔ k ∈ ks := mem_cons_of_ne hk
      by_cases hh : hasKey o k0
      · simp only [pick, if_pos hh, olookup, if_neg hk, ih, hmc]
      · simp only [pick, if_neg hh, ih, hmc]

theorem hasKey_pick_iff (o : Obj) (ks : List String) (k : String) :
    hasKey (pick o ks) k = true ↔ (k ∈ ks ∧ hasKey o k = true) := by
  induction ks with
  | nil => simp [pick, hasKey]
  | cons k0 ks ih =>
    by_cases hh : hasKey o k0
    · simp only [pick, if_pos hh, hasKey, Bool.or_eq_true, beq_iff_eq, ih, List.mem_cons]
      constructor
      · rintro (h | ⟨h1, h2⟩)
        · exact ⟨Or.inl h.symm, by rw [← h]; exact hh⟩
        · exact ⟨Or.inr h1, h2⟩
      · rintro ⟨(h1 | h1), h2⟩
        · exact Or.inl h1.symm
        · exact Or.inr ⟨h1, h2⟩
    · simp only [pick, if_neg hh, ih, List.mem_cons]
      constructor
      · rintro ⟨h1, h2⟩
        exact ⟨Or.inr h1, h2⟩
      · rintro ⟨(h1 | h1), h2⟩
        · subst h1
          exact absurd h2 hh
        · exact ⟨h1, h2⟩

/-! ## Lemmas about rule compilation -/

/-- Closed form of the properties of a compiled rule object. -/
theorem olookup_exposedRule (p : String) (options : Obj) (k : String) :
    olookup (exposedRule p options) k =
      if k = "key" then .strV p
      else if k = "as" then
        (if truthy (olookup options "as") then olookup options "as" else .strV p)
      else if k = "mode" then
        (if isUndef (olookup options "value") then .undef
         else .strV (if isFunction (olookup options "value") then "fn" else "val"))
      else if k ∈ recognizedOptions then olookup options k
      else .undef := by
  have hval := olookup_pick options recognizedOptions "value"
  have has := olookup_pick options recognizedOptions "as"
  rw [if_pos (by simp [recognizedOptions])] at hval
  rw [if_pos (by simp [recognizedOptions])] at has
  by_cases hk1 : k = "key"
  · subst hk1
    simp [exposedRule, olookup_oset]
  · have hk1' : ¬ ("key" : String) = k := fun h => hk1 h.symm
    by_cases hk2 : k = "as"
    · subst hk2
      by_cases hc : isUndef (olookup options "value")
      · simp [exposedRule, hval, hc, olookup_oset, has]
      · simp [exposedRule, hval, hc, olookup_oset, has]
    · have hk2' : ¬ ("as" : String) = k := fun h => hk2 h.symm
      by_cases hk3 : k = "mode"
      · subst hk3
        by_cases hc : isUndef (olookup options "value")
        · simp [exposedRule, hval, hc, olookup_oset, olookup_pick, recognizedOptions]
        · simp [exposedRule, hval, hc, olookup_oset]
      · have hk3' : ¬ ("mode" : String) = k := fun h => hk3 h.symm
        by_cases hc : isUndef (olookup options "value") <;>
          simp [exposedRule, hval, hc, olookup_oset, olookup_pick, hk1, hk2, hk3,
            hk1', hk2', hk3']

/-- Which keys a compiled rule object carries. -/
theorem hasKey_exposedRule_iff (p : String) (options : Obj) (k : String) :
    hasKey (exposedRule p options) k = true ↔
      (k = "key" ∨ k = "as" ∨
       (k = "mode" ∧ ¬ isUndef (olookup options "value") = true) ∨
       (k ∈ recognizedOptions ∧ hasKey options k = true)) := by
  have hval : olookup (pick options recognizedOptions) "value" = olookup options "value" := by
    rw [olookup_pick, if_pos (by simp [recognizedOptions])]
  simp only [exposedRule, hval]
  by_cases hc : isUndef (olookup options "value")
  · rw [if_pos hc]
    simp only [hasKey_oset_iff, hasKey_pick_iff, hc]
    tauto
  · rw [if_neg hc]
    simp only [hasKey_oset_iff, hasKey_pick_iff, hc]
    tauto

/-- `expose` succeeds exactly when its two `assert`s pass, and then
appends the compiled rule. -/
theorem expose_ok (properties : List Obj) (p : String) (options : Obj)
    (hif : truthy (olookup options "if") = true → isFunction (olookup options "if") = true)
    (husing : truthy (olookup options "using") = true →
      isEntity (olookup options "using") = true) :
    expose properties p options = .ok (properties ++ [exposedRule p options]) := by
  have h1 : olookup (pick options recognizedOptions) "if" = olookup options "if" := by
    rw [olookup_pick, if_pos (by simp [recognizedOptions])]
  have h2 : olookup (pick options recognizedOptions) "using" = olookup options "using" := by
    rw [olookup_pick, if_pos (by simp [recognizedOptions])]
  simp only [expose]
  rw [h1, h2]
  by_cases t1 : truthy (olookup options "if")
  · rw [hif t1]
    by_cases t2 : truthy (olookup options "using")
    · rw [husing t2]
      simp [t1, t2]
    · simp [t1, t2]
  · by_cases t2 : truthy (olookup options "using")
    · rw [husing t2]
      simp [t1, t2]
    · simp [t1, t2]

/-- Whenever `expose` succeeds, the result is the input rule list with
exactly the compiled rule appended. -/
theorem expose_ok_shape {properties : List Obj} {p : String} {options : Obj}
    {props' : List Obj} (h : expose properties p options = .ok props') :
    props' = properties ++ [exposedRule p options] := by
  unfold expose at h
  by_cases c1 : (truthy (olookup (pick options recognizedOptions) "if") &&
      !isFunction (olookup (pick options recognizedOptions) "if")) = true
  · rw [if_pos c1] at h
    exact absurd h (by simp)
  · rw [if_neg c1] at h
    by_cases c2 : (truthy (olookup (pick options recognizedOptions) "using") &&
        !isEntity (olookup (pick options recognizedOptions) "using")) = true
    · rw [if_pos c2] at h
      exact absurd h (by simp)
    · rw [if_neg c2] at h
      injection h with hh
      exact hh.symm

/-- `expose` fails on a truthy non-callable `if` option. -/
theorem expose_error_if (properties : List Obj) (p : String) (options : Obj)
    (t : truthy (olookup options "if") = true)
    (hf : isFunction (olookup options "if") = false) :
    expose properties p options =
      .error (.assertionError (errorMsg "\"if\" must be a function!")) := by
  have h1 : olookup (pick options recognizedOptions) "if" = olookup options "if" := by
    rw [olookup_pick, if_pos (by simp [recognizedOptions])]
  simp only [expose]
  rw [h1, t, hf]
  simp

/-- `expose` fails on a truthy non-Entity `using` option (when the
`if` check passed). -/
theorem expose_error_using (properties : List Obj) (p : String) (options : Obj)
    (hif : truthy (olookup options "if") = true → isFunction (olookup options "if") = true)
    (t : truthy (olookup options "using") = true)
    (he : isEntity (olookup options "using") = false) :
    expose properties p options =
      .error (.assertionError (errorMsg "\"using\" must be an Entity!")) := by
  have h1 : olookup (pick options recognizedOptions) "if" = olookup options "if" := by
    rw [olookup_pick, if_pos (by simp [recognizedOptions])]
  have h2 : olookup (pick options recognizedOptions) "using" = olookup options "using" := by
    rw [olookup_pick, if_pos (by simp [recognizedOptions])]
  simp only [expose]
  rw [h1, h2, t, he]
  by_cases t1 : truthy (olookup options "if")
  · rw [hif t1]
    simp
  · simp [t1]

/-! ## Lemmas about the projector -/

theorem representRules_nil (data options : JSVal) (result : Obj) :
    representRules [] data options result = .ok result := by
  simp [representRules]

theorem representRules_cons (r : Obj) (rest : List Obj) (data options : JSVal)
    (result : Obj) :
    representRules (r :: rest) data options result =
      match resolveRule r data options with
      | .error e => .error e
      | .ok none => representRules rest data options result
      | .ok (some val) =>
        (match placeRule r val result with
         | .error e => .error e
         | .ok result2 => representRules rest data options result2) := by
  simp [representRules]

theorem representRules_append (l1 l2 : List Obj) (data options : JSVal) (result : Obj) :
    representRules (l1 ++ l2) data options result =
      match representRules l1 data options result with
      | .error e => .error e
      | .ok res1 => representRules l2 data options res1 := by
  induction l1 generalizing result with
  | nil => simp [representRules_nil]
  | cons r rest ih =>
    rw [List.cons_append, representRules_cons, representRules_cons]
    cases hres : resolveRule r data options with
    | error e => rfl
    | ok o =>
      cases o with
      | none => exact ih result
      | some val =>
        show (match placeRule r val result with
          | Except.error e => Except.error e
          | Except.ok result2 => representRules (rest ++ l2) data options result2) = _
        cases hpl : placeRule r val result with
        | error e => simp only [hpl]
        | ok result2 => simp only [hpl]; exact ih result2

/-- `represent` on a non-array input reduces the rule list onto a
fresh output object. -/
theorem represent_eq_rules (props : List Obj) (data options : JSVal)
    (hd : isArray data = false) :
    represent props data options =
      match representRules props data options [] with
      | .error e => .error e
      | .ok result => .ok (.objV result) := by
  cases data <;> simp_all [represent, isArray]

/-- A non-merge placement writes exactly the key `opts.as`. -/
theorem mem_okeys_placeRule_nomerge {r : Obj} {val : JSVal} {result result' : Obj}
    (hm : truthy (olookup r "merge") = false)
    (h : placeRule r val result = .ok result') :
    ∀ k ∈ okeys result', k ∈ okeys result ∨ k = jsToKey (olookup r "as") := by
  intro k hk
  unfold placeRule at h
  rw [hm] at h
  simp only [Bool.false_eq_true, if_false] at h
  injection h with h
  subst h
  rw [okeys_oset] at hk
  by_cases hh : hasKey result (jsToKey (olookup r "as"))
  · rw [if_pos hh] at hk
    exact Or.inl hk
  · rw [if_neg hh] at hk
    rcases List.mem_append.1 hk with h1 | h1
    · exact Or.inl h1
    · exact Or.inr (List.mem_singleton.1 h1)

/-- Key-provenance through the rule fold, for merge-free rule lists:
every key of the final output was already present or was written, as
its `as` name, by a rule that resolved to a value. -/
theorem representRules_okeys_nomerge {rules : List Obj} {data options : JSVal}
    {result result' : Obj}
    (hm : ∀ r ∈ rules, truthy (olookup r "merge") = false)
    (h : representRules rules data options result = .ok result') :
    ∀ k ∈ okeys result', k ∈ okeys result ∨
      ∃ r ∈ rules, (∃ v, resolveRule r data options = .ok (some v)) ∧
        jsToKey (olookup r "as") = k := by
  induction rules generalizing result with
  | nil =>
    rw [representRules_nil] at h
    injection h with h
    subst h
    exact fun k hk => Or.inl hk
  | cons r rest ih =>
    rw [representRules_cons] at h
    cases hres : resolveRule r data options with
    | error e =>
      simp only [hres] at h
      exact Except.noConfusion h
    | ok o =>
      simp only [hres] at h
      cases o with
      | none =>
        intro k hk
        rcases ih (fun r hr => hm r (List.mem_cons_of_mem _ hr)) h k hk with h1 | ⟨r', hr', hv, ha⟩
        · exact Or.inl h1
        · exact Or.inr ⟨r', List.mem_cons_of_mem _ hr', hv, ha⟩
      | some val =>
        cases hpl : placeRule r val result with
        | error e =>
          simp only [hpl] at h
          exact Except.noConfusion h
        | ok result2 =>
          simp only [hpl] at h
          intro k hk
          rcases ih (fun r hr => hm r (List.mem_cons_of_mem _ hr)) h k hk with h1 | ⟨r', hr', hv, ha⟩
          · rcases mem_okeys_placeRule_nomerge (hm r (List.mem_cons_self _ _)) hpl k h1 with
              h2 | h2
            · exact Or.inl h2
            · exact Or.inr ⟨r, List.mem_cons_self _ _, ⟨val, hres⟩, h2.symm⟩
          · exact Or.inr ⟨r', List.mem_cons_of_mem _ hr', hv, ha⟩

/-! ## Claim C4 -/

/-- C4 (counterexample): the claim includes `require` in the
recognized option subset, but the source's `pick` list
(src/index.js line 88) does not contain `require`: a declaration bag
carrying `require: true` compiles to a rule with no `require` key at
all. -/
theorem require_option_dropped :
    expose [] "a" [("require", JSVal.boolV true)] =
      .ok [[("as", JSVal.strV "a"), ("key", JSVal.strV "a")]] ∧
    hasKey [("as", JSVal.strV "a"), ("key", JSVal.strV "a")] "require" = false := by
  exact ⟨rfl, rfl⟩

/-- C4 (amended): compilation of an object-shaped declaration extracts
exactly the recognized subset `{as, default, if, merge, using, value}`
— without `require` — silently dropping every other key; compiled rule
objects never carry a key outside that subset plus the derived `mode`
and `key` (and `as`) fields, and every recognized non-`as` option is
carried over verbatim. -/
theorem compiled_rule_recognized_keys (properties : List Obj) (p : String)
    (options : Obj) (props' : List Obj)
    (h : expose properties p options = .ok props') :
    ∃ r, props' = properties ++ [r] ∧
      (∀ k, hasKey r k = true → k ∈ allowedRuleKeys) ∧
      (∀ k, k ∈ ["default", "if", "merge", "using", "value"] →
        olookup r k = olookup options k) := by
  refine ⟨exposedRule p options, expose_ok_shape h, ?_, ?_⟩
  · intro k hk
    rcases (hasKey_exposedRule_iff p options k).1 hk with h1 | h1 | ⟨h1, _⟩ | ⟨h1, _⟩
    · subst h1
      simp [allowedRuleKeys]
    · subst h1
      simp [allowedRuleKeys]
    · subst h1
      simp [allowedRuleKeys]
    · simp only [recognizedOptions, List.mem_cons, List.not_mem_nil, or_false] at h1
      rcases h1 with rfl | rfl | rfl | rfl | rfl | rfl <;> simp [allowedRuleKeys]
  · intro k hk
    simp only [List.mem_cons, List.not_mem_nil, or_false] at hk
    rw [olookup_exposedRule]
    rcases hk with rfl | rfl | rfl | rfl | rfl <;> simp [recognizedOptions]

/-- C4 witness: a concrete declaration bag with an extraneous key. -/
theorem compiled_rule_recognized_keys_witness :
    ∃ r, ([[("default", JSVal.numV 5), ("as", JSVal.strV "n"), ("key", JSVal.strV "n")]] :
        List Obj) = [] ++ [r] ∧
      (∀ k, hasKey r k = true → k ∈ allowedRuleKeys) ∧
      (∀ k, k ∈ ["default", "if", "merge", "using", "value"] →
        olookup r k = olookup [("default", JSVal.numV 5), ("x", JSVal.numV 9)] k) :=
  compiled_rule_recognized_keys [] "n" [("default", JSVal.numV 5), ("x", JSVal.numV 9)] _ rfl

/-! ## Claim C5 -/

/-- C5: the compiled rule's `mode` is derived from `options.value`: a
callable value gives mode `'fn'` (the spec's "computed"), a defined
non-callable value gives `'val'` ("literal"), and an absent (strictly
`undefined`) value leaves `mode` unset ("none"), in which case value
resolution at projection time reads `data[key]` for the rule's source
key. -/
theorem mode_from_value_option (properties : List Obj) (p : String)
    (options : Obj) (props' : List Obj)
    (h : expose properties p options = .ok props') :
    ∃ r, props' = properties ++ [r] ∧
      (olookup options "value" = .undef →
        olookup r "mode" = .undef ∧
        ∀ data options2, rawValue r data options2 = getProp data p) ∧
      (isFunction (olookup options "value") = true → olookup r "mode" = .strV "fn") ∧
      (olookup options "value" ≠ .undef → isFunction (olookup options "value") = false →
        olookup r "mode" = .strV "val") := by
  have hmode := olookup_exposedRule p options "mode"
  rw [if_neg (by simp), if_neg (by simp), if_pos rfl] at hmode
  have hkey := olookup_exposedRule p options "key"
  rw [if_pos rfl] at hkey
  refine ⟨exposedRule p options, expose_ok_shape h, ?_, ?_, ?_⟩
  · intro hv
    have hm : olookup (exposedRule p options) "mode" = .undef := by
      rw [hmode, hv]
      simp [isUndef]
    refine ⟨hm, ?_⟩
    intro data options2
    unfold rawValue
    rw [hm, hkey]
    simp [jsToKey]
  · intro hf
    rw [hmode]
    have : isUndef (olookup options "value") = false := by
      cases hv : olookup options "value" <;> simp_all [isFunction, isUndef]
    rw [this]
    simp [hf]
  · intro hv hf
    rw [hmode]
    have : isUndef (olookup options "value") = false := by
      cases hvv : olookup options "value" <;> simp_all [isUndef]
    rw [this]
    simp [hf]

/-- C5 witness: the three modes at concrete option bags. -/
theorem mode_from_value_option_witness :
    (∃ r, ([[("value", JSVal.funcV (.getField "x")), ("mode", JSVal.strV "fn"),
        ("as", JSVal.strV "a"), ("key", JSVal.strV "a")]] : List Obj) = [] ++ [r] ∧
      (olookup [("value", JSVal.funcV (.getField "x"))] "value" = .undef →
        olookup r "mode" = .undef ∧
        ∀ data options2, rawValue r data options2 = getProp data "a") ∧
      (isFunction (olookup [("value", JSVal.funcV (.getField "x"))] "value") = true →
        olookup r "mode" = .strV "fn") ∧
      (olookup [("value", JSVal.funcV (.getField "x"))] "value" ≠ .undef →
        isFunction (olookup [("value", JSVal.funcV (.getField "x"))] "value") = false →
        olookup r "mode" = .strV "val")) ∧
    (∃ r, ([[("value", JSVal.numV 3), ("mode", JSVal.strV "val"),
        ("as", JSVal.strV "b"), ("key", JSVal.strV "b")]] : List Obj) = [] ++ [r] ∧
      (olookup [("value", JSVal.numV 3)] "value" = .undef →
        olookup r "mode" = .undef ∧
        ∀ data options2, rawValue r data options2 = getProp data "b") ∧
      (isFunction (olookup [("value", JSVal.numV 3)] "value") = true →
        olookup r "mode" = .strV "fn") ∧
      (olookup [("value", JSVal.numV 3)] "value" ≠ .undef →
        isFunction (olookup [("value", JSVal.numV 3)] "value") = false →
        olookup r "mode" = .strV "val")) ∧
    (∃ r, ([[("as", JSVal.strV "c"), ("key", JSVal.strV "c")]] : List Obj) = [] ++ [r] ∧
      (olookup ([] : Obj) "value" = .undef →
        olookup r "mode" = .undef ∧
        ∀ data options2, rawValue r data options2 = getProp data "c") ∧
      (isFunction (olookup ([] : Obj) "value") = true → olookup r "mode" = .strV "fn") ∧
      (olookup ([] : Obj) "value" ≠ .undef →
        isFunction (olookup ([] : Obj) "value") = false →
        olookup r "mode" = .strV "val")) :=
  ⟨mode_from_value_option [] "a" [("value", JSVal.funcV (.getField "x"))] _ rfl,
   mode_from_value_option [] "b" [("value", JSVal.numV 3)] _ rfl,
   mode_from_value_option [] "c" [] _ rfl⟩

/-- Unfolding `resolveRule` once the guard and raw value are known. -/
theorem resolveRule_eq (r : Obj) (data options : JSVal)
    (hg : checkGuard r data options = .ok true)
    {raw : JSVal} (hraw : rawValue r data options = .ok raw) :
    resolveRule r data options =
      match defaulted r raw with
      | none => .ok none
      | some val =>
        (match olookup r "using" with
         | .entityV u =>
           (match represent u val options with
            | .error e => .error e
            | .ok v => .ok (some v))
         | uv => if truthy uv then .error (.typeError "opts.using.represent is not a function")
             else .ok (some val)) := by
  simp only [resolveRule, hg, hraw]
  cases hd : defaulted r raw with
  | none => rfl
  | some val => cases huv : olookup r "using" <;> simp only [huv]

/-- A skipped or falsy `using` leaves the defaulted value untouched. -/
theorem resolveRule_no_using (r : Obj) (data options : JSVal) {raw val : JSVal}
    (hg : checkGuard r data options = .ok true)
    (hraw : rawValue r data options = .ok raw)
    (hd : defaulted r raw = some val)
    (hu : truthy (olookup r "using") = false) :
    resolveRule r data options = .ok (some val) := by
  rw [resolveRule_eq r data options hg hraw, hd]
  cases huv : olookup r "using" <;> simp_all [truthy]

/-! ## Claim C8 -/

/-- C8 (counterexample): the claim says a present-but-not-callable
`if` option fails compilation, but the source only checks
`if (opts.if) …` — a falsy non-callable `if` (here `false`) passes
validation silently, and the rule is appended with it. -/
theorem falsy_noncallable_if_accepted :
    expose [] "a" [("if", JSVal.boolV false)] =
      .ok [[("if", JSVal.boolV false), ("as", JSVal.strV "a"), ("key", JSVal.strV "a")]] ∧
    isFunction (JSVal.boolV false) = false := by
  exact ⟨rfl, rfl⟩

/-- C8 (amended): if `options.if` is truthy but not callable, or
`options.using` is truthy (with a valid `if`) but not an Entity,
`expose` fails with the corresponding assertion error before any rule
is appended; falsy non-callable values for these options are accepted. -/
theorem truthy_invalid_option_fails_compile :
    (∀ (properties : List Obj) (p : String) (options : Obj),
      truthy (olookup options "if") = true →
      isFunction (olookup options "if") = false →
      expose properties p options =
        .error (.assertionError (errorMsg "\"if\" must be a function!"))) ∧
    (∀ (properties : List Obj) (p : String) (options : Obj),
      (truthy (olookup options "if") = true → isFunction (olookup options "if") = true) →
      truthy (olookup options "using") = true →
      isEntity (olookup options "using") = false →
      expose properties p options =
        .error (.assertionError (errorMsg "\"using\" must be an Entity!"))) :=
  ⟨expose_error_if, expose_error_using⟩

/-- C8 witness: a truthy non-callable `if` (the number 1) and a truthy
non-Entity `using` (the number 2) at concrete inputs. -/
theorem truthy_invalid_option_fails_compile_witness :
    expose [] "a" [("if", JSVal.numV 1)] =
      .error (.assertionError (errorMsg "\"if\" must be a function!")) ∧
    expose [] "b" [("using", JSVal.numV 2)] =
      .error (.assertionError (errorMsg "\"using\" must be an Entity!")) :=
  ⟨truthy_invalid_option_fails_compile.1 [] "a" [("if", JSVal.numV 1)] rfl rfl,
   truthy_invalid_option_fails_compile.2 [] "b" [("using", JSVal.numV 2)]
     (fun hc => Bool.noConfusion hc) rfl rfl⟩

/-! ## Claim C10 -/

/-- C10: a declaration entry whose value is an object with a truthy
`key` property is compiled as if declared under that `key`: the
mapping's own key is ignored, the compiled rule's source `key` is the
`key` property (in its string form), and when no truthy `as` is given
the output name defaults to it as well.  `compileEntry` is the body of
the constructor's loop for any user-supplied declaration, so the
override is not limited to re-compiling an extended entity's rules. -/
theorem key_override_in_declaration (properties : List Obj) (k : String) (opts : Obj)
    (hk : truthy (olookup opts "key") = true) :
    compileEntry properties k (.objV opts) =
      expose properties (jsToKey (olookup opts "key")) opts ∧
    (∀ props', expose properties (jsToKey (olookup opts "key")) opts = .ok props' →
      ∃ r, props' = properties ++ [r] ∧
        olookup r "key" = .strV (jsToKey (olookup opts "key")) ∧
        (truthy (olookup opts "as") = false →
          olookup r "as" = .strV (jsToKey (olookup opts "key")))) := by
  constructor
  · simp [compileEntry, getOptsKeyProp, hk]
  · intro props' h
    refine ⟨exposedRule (jsToKey (olookup opts "key")) opts, expose_ok_shape h, ?_, ?_⟩
    · have := olookup_exposedRule (jsToKey (olookup opts "key")) opts "key"
      rw [if_pos rfl] at this
      exact this
    · intro ha
      have := olookup_exposedRule (jsToKey (olookup opts "key")) opts "as"
      rw [if_neg (by simp), if_pos rfl, if_neg (by simp [ha])] at this
      exact this

/-- C10 witness: `{foo: {key: 'bar'}}` compiles a rule reading and
exposing `bar`, ignoring `foo`. -/
theorem key_override_in_declaration_witness :
    compileEntry [] "foo" (.objV [("key", JSVal.strV "bar")]) =
      expose [] (jsToKey (olookup [("key", JSVal.strV "bar")] "key"))
        [("key", JSVal.strV "bar")] ∧
    (∀ props', expose [] (jsToKey (olookup [("key", JSVal.strV "bar")] "key"))
        [("key", JSVal.strV "bar")] = .ok props' →
      ∃ r, props' = [] ++ [r] ∧
        olookup r "key" = .strV (jsToKey (olookup [("key", JSVal.strV "bar")] "key")) ∧
        (truthy (olookup [("key", JSVal.strV "bar")] "as") = false →
          olookup r "as" = .strV (jsToKey (olookup [("key", JSVal.strV "bar")] "key")))) :=
  key_override_in_declaration [] "foo" [("key", JSVal.strV "bar")] rfl

/-! ## Claim C6 -/

/-- C6: the absence sentinel is strict `undefined`.  (1) A resolved
value that is not strictly `undefined` — including `null`, `false`,
`0` and `""` — is kept as is, the `default` is not consulted.  (2) When
the resolved value is strictly `undefined` and a `default` is set, the
default is used.  (3) When it is strictly `undefined` and no default
is set, the rule resolves to a skip, and the fold leaves the output
object untouched — the key is omitted, not set to `null`/`undefined`. -/
theorem default_only_for_strict_undefined :
    (∀ (r : Obj) (data options raw : JSVal),
      checkGuard r data options = .ok true →
      rawValue r data options = .ok raw →
      isUndef raw = false →
      truthy (olookup r "using") = false →
      resolveRule r data options = .ok (some raw)) ∧
    (∀ (r : Obj) (data options : JSVal),
      checkGuard r data options = .ok true →
      rawValue r data options = .ok .undef →
      isUndef (olookup r "default") = false →
      truthy (olookup r "using") = false →
      resolveRule r data options = .ok (some (olookup r "default"))) ∧
    (∀ (r : Obj) (data options : JSVal),
      checkGuard r data options = .ok true →
      rawValue r data options = .ok .undef →
      olookup r "default" = .undef →
      resolveRule r data options = .ok none ∧
      (∀ (rest : List Obj) (result : Obj),
        representRules (r :: rest) data options result =
          representRules rest data options result)) := by
  refine ⟨?_, ?_, ?_⟩
  · intro r data options raw hg hraw hu husing
    exact resolveRule_no_using r data options hg hraw (by simp [defaulted, hu]) husing
  · intro r data options hg hraw hd husing
    exact resolveRule_no_using r data options hg hraw
      (by unfold defaulted; rw [hd]; simp [isUndef]) husing
  · intro r data options hg hraw hd
    have hres : resolveRule r data options = .ok none := by
      rw [resolveRule_eq r data options hg hraw]
      simp [defaulted, isUndef, hd]
    refine ⟨hres, ?_⟩
    intro rest result
    rw [representRules_cons, hres]

/-- C6 witness: a record whose field is `null` keeps `null` (default
ignored); a missing field takes the default; a missing field with no
default is skipped and the output object stays empty. -/
theorem default_only_for_strict_undefined_witness :
    resolveRule [("default", JSVal.numV 9), ("as", JSVal.strV "a"), ("key", JSVal.strV "a")]
      (.objV [("a", JSVal.nullV)]) (.objV []) = .ok (some .nullV) ∧
    resolveRule [("default", JSVal.numV 9), ("as", JSVal.strV "a"), ("key", JSVal.strV "a")]
      (.objV []) (.objV []) = .ok (some (JSVal.numV 9)) ∧
    resolveRule [("as", JSVal.strV "a"), ("key", JSVal.strV "a")]
      (.objV []) (.objV []) = .ok none ∧
    representRules [[("as", JSVal.strV "a"), ("key", JSVal.strV "a")]]
      (.objV []) (.objV []) [] = representRules [] (.objV []) (.objV []) [] := by
  have h1 := default_only_for_strict_undefined.1
    [("default", JSVal.numV 9), ("as", JSVal.strV "a"), ("key", JSVal.strV "a")]
    (.objV [("a", JSVal.nullV)]) (.objV []) .nullV rfl rfl rfl rfl
  have h2 := default_only_for_strict_undefined.2.1
    [("default", JSVal.numV 9), ("as", JSVal.strV "a"), ("key", JSVal.strV "a")]
    (.objV []) (.objV []) rfl rfl rfl rfl
  have h3 := default_only_for_strict_undefined.2.2
    [("as", JSVal.strV "a"), ("key", JSVal.strV "a")] (.objV []) (.objV []) rfl rfl rfl
  refine ⟨?_, ?_, h3.1, h3.2 [] []⟩
  · simpa [olookup] using h1
  · simpa [olookup] using h2

/-! ## Claim C3 -/

/-- C3: when a rule has both a `default` and a `using` entity and the
raw resolved value is strictly `undefined`, the default is substituted
first and then projected through the nested entity: the rule resolves
to `using.represent(default, options)`, not to the raw default. -/
theorem default_projected_through_using (r : Obj) (data options : JSVal)
    (u : List Obj)
    (hg : checkGuard r data options = .ok true)
    (hraw : rawValue r data options = .ok .undef)
    (hd : isUndef (olookup r "default") = false)
    (hu : olookup r "using" = .entityV u) :
    resolveRule r data options =
      (represent u (olookup r "default") options).map some := by
  rw [resolveRule_eq r data options hg hraw]
  have hdef : defaulted r .undef = some (olookup r "default") := by
    unfold defaulted
    rw [hd]
    simp [isUndef]
  rw [hdef, hu]
  show (match represent u (olookup r "default") options with
    | Except.error e => Except.error e
    | Except.ok v => Except.ok (some v)) = _
  cases represent u (olookup r "default") options <;> rfl

/-- C3 witness: a rule with `default: {name: 'N', secret: 1}` and a
`using` entity exposing only `name`; on an empty record the output
value is the default projected through the entity, `{name: 'N'}`. -/
theorem default_projected_through_using_witness :
    resolveRule
      [("default", JSVal.objV [("name", JSVal.strV "N"), ("secret", JSVal.numV 1)]),
       ("using", JSVal.entityV [[("as", JSVal.strV "name"), ("key", JSVal.strV "name")]]),
       ("as", JSVal.strV "u"), ("key", JSVal.strV "u")]
      (.objV []) (.objV []) =
      (represent [[("as", JSVal.strV "name"), ("key", JSVal.strV "name")]]
        (olookup
          [("default", JSVal.objV [("name", JSVal.strV "N"), ("secret", JSVal.numV 1)]),
           ("using", JSVal.entityV [[("as", JSVal.strV "name"), ("key", JSVal.strV "name")]]),
           ("as", JSVal.strV "u"), ("key", JSVal.strV "u")] "default") (.objV [])).map some ∧
    (represent [[("as", JSVal.strV "name"), ("key", JSVal.strV "name")]]
      (.objV [("name", JSVal.strV "N"), ("secret", JSVal.numV 1)]) (.objV [])) =
      .ok (.objV [("name", JSVal.strV "N")]) := by
  constructor
  · exact default_projected_through_using _ (.objV []) (.objV [])
      [[("as", JSVal.strV "name"), ("key", JSVal.strV "name")]] rfl rfl rfl rfl
  · simp [represent, representRules, resolveRule, checkGuard, rawValue, getProp, defaulted,
      placeRule, olookup, truthy, isUndef, isObject, jsToKey, applyFn, oset]

/-! ## Claim C7 -/

/-- `placeRule` on a merge rule with an array value and a defined
non-array existing slot fails with the assertion error. -/
theorem placeRule_merge_error (r : Obj) (xs : List JSVal) (result : Obj)
    (hm : truthy (olookup r "merge") = true)
    (hu : isUndef (olookup result (jsToKey (olookup r "as"))) = false)
    (ha : isArray (olookup result (jsToKey (olookup r "as"))) = false) :
    placeRule r (.arrV xs) result = .error (.assertionError (errorMsg
      ("attempting to merge array with non-array for property " ++
       jsToKey (olookup r "as") ++ "!"))) := by
  unfold placeRule
  rw [hm]
  cases hv : olookup result (jsToKey (olookup r "as")) <;>
    simp_all [isUndef, isArray]

/-- C7: during `represent`, a merge rule whose value resolved to an
array fails with the `ConfigurationError` assertion when the existing
output slot is defined and not an array — the error surfaces from the
projection fold itself; when the slot is absent (`undefined`) the
array is written as is, and when the slot holds an array the elements
are appended after the existing ones. -/
theorem merge_array_semantics :
    (∀ (r : Obj) (xs : List JSVal) (rest : List Obj) (data options : JSVal)
        (result : Obj),
      truthy (olookup r "merge") = true →
      resolveRule r data options = .ok (some (.arrV xs)) →
      isUndef (olookup result (jsToKey (olookup r "as"))) = false →
      isArray (olookup result (jsToKey (olookup r "as"))) = false →
      representRules (r :: rest) data options result = .error (.assertionError (errorMsg
        ("attempting to merge array with non-array for property " ++
         jsToKey (olookup r "as") ++ "!")))) ∧
    (∀ (r : Obj) (xs : List JSVal) (result : Obj),
      truthy (olookup r "merge") = true →
      olookup result (jsToKey (olookup r "as")) = .undef →
      placeRule r (.arrV xs) result =
        .ok (oset result (jsToKey (olookup r "as")) (.arrV xs))) ∧
    (∀ (r : Obj) (xs ys : List JSVal) (result : Obj),
      truthy (olookup r "merge") = true →
      olookup result (jsToKey (olookup r "as")) = .arrV ys →
      placeRule r (.arrV xs) result =
        .ok (oset result (jsToKey (olookup r "as")) (.arrV (ys ++ xs)))) := by
  refine ⟨?_, ?_, ?_⟩
  · intro r xs rest data options result hm hres hu ha
    rw [representRules_cons, hres]
    have := placeRule_merge_error r xs result hm hu ha
    simp only [this]
  · intro r xs result hm hv
    unfold placeRule
    rw [hm, hv]
    simp
  · intro r xs ys result hm hv
    unfold placeRule
    rw [hm, hv]
    simp

/-- C7 witness: the three merge behaviours at concrete inputs. -/
theorem merge_array_semantics_witness :
    representRules
      [[("merge", JSVal.boolV true), ("as", JSVal.strV "x"), ("key", JSVal.strV "b")]]
      (.objV [("b", JSVal.arrV [JSVal.numV 2])]) (.objV []) [("x", JSVal.numV 1)] =
      .error (.assertionError (errorMsg
        "attempting to merge array with non-array for property x!")) ∧
    placeRule [("merge", JSVal.boolV true), ("as", JSVal.strV "x"), ("key", JSVal.strV "b")]
      (.arrV [JSVal.numV 2]) [] = .ok [("x", JSVal.arrV [JSVal.numV 2])] ∧
    placeRule [("merge", JSVal.boolV true), ("as", JSVal.strV "x"), ("key", JSVal.strV "b")]
      (.arrV [JSVal.numV 2]) [("x", JSVal.arrV [JSVal.numV 1])] =
      .ok [("x", JSVal.arrV [JSVal.numV 1, JSVal.numV 2])] := by
  have h1 := merge_array_semantics.1
    [("merge", JSVal.boolV true), ("as", JSVal.strV "x"), ("key", JSVal.strV "b")]
    [JSVal.numV 2] [] (.objV [("b", JSVal.arrV [JSVal.numV 2])]) (.objV [])
    [("x", JSVal.numV 1)] rfl
    (by simp [resolveRule, checkGuard, rawValue, getProp, defaulted, olookup, truthy,
      isUndef, jsToKey]) rfl rfl
  have h2 := merge_array_semantics.2.1
    [("merge", JSVal.boolV true), ("as", JSVal.strV "x"), ("key", JSVal.strV "b")]
    [JSVal.numV 2] [] rfl rfl
  have h3 := merge_array_semantics.2.2
    [("merge", JSVal.boolV true), ("as", JSVal.strV "x"), ("key", JSVal.strV "b")]
    [JSVal.numV 2] [JSVal.numV 1] [("x", JSVal.arrV [JSVal.numV 1])] rfl rfl
  refine ⟨?_, ?_, ?_⟩
  · simpa [olookup, jsToKey] using h1
  · simpa [olookup, jsToKey, oset] using h2
  · simpa [olookup, jsToKey, oset] using h3

/-- A successful `represent` returning an object came from a non-array
input and is exactly the rule fold from an empty output. -/
theorem represent_objV_elim {props : List Obj} {data options : JSVal} {out : Obj}
    (h : represent props data options = .ok (.objV out)) :
    representRules props data options [] = .ok out := by
  have hna : isArray data = false := by
    cases data <;> try rfl
    exfalso
    rename_i xs
    simp only [represent] at h
    cases hl : representList props xs options with
    | error e =>
      simp only [hl] at h
      exact Except.noConfusion h
    | ok ys =>
      simp only [hl] at h
      simp at h
  rw [represent_eq_rules props data options hna] at h
  cases hr : representRules props data options [] with
  | error e =>
    simp only [hr] at h
    exact Except.noConfusion h
  | ok res =>
    simp only [hr] at h
    injection h with h2
    injection h2 with h3
    rw [h3]

/-- A non-merge placement is a plain assignment `result[opts.as] = val`. -/
theorem placeRule_nomerge (r : Obj) (val : JSVal) (result : Obj)
    (hm : truthy (olookup r "merge") = false) :
    placeRule r val result = .ok (oset result (jsToKey (olookup r "as")) val) := by
  unfold placeRule
  rw [hm]
  simp

/-- A merge placement of an array onto an existing array concatenates. -/
theorem placeRule_merge_concat (r : Obj) (xs ys : List JSVal) (result : Obj)
    (hm : truthy (olookup r "merge") = true)
    (hv : olookup result (jsToKey (olookup r "as")) = .arrV ys) :
    placeRule r (.arrV xs) result =
      .ok (oset result (jsToKey (olookup r "as")) (.arrV (ys ++ xs))) := by
  unfold placeRule
  rw [hm, hv]
  simp

/-! ## Claim C2 -/

/-- C2: rules run strictly in declaration order over a shared output
object.  (1) A non-merge rule that resolves to a value always ends
with `output[opts.as]` equal to its own value — any value written by
an earlier rule under the same `as` key is overwritten, so the
later-declared rule wins.  (2) A merge rule resolving to an array,
arriving at a slot already holding the array accumulated by the
earlier rules, leaves the earlier elements followed by its own —
concatenation in declaration order instead of overwriting. -/
theorem rules_order_overwrite_and_merge_concat :
    (∀ (pre : List Obj) (r : Obj) (data options : JSVal) (out : Obj) (v : JSVal),
      represent (pre ++ [r]) data options = .ok (.objV out) →
      truthy (olookup r "merge") = false →
      resolveRule r data options = .ok (some v) →
      olookup out (jsToKey (olookup r "as")) = v) ∧
    (∀ (pre : List Obj) (r : Obj) (data options : JSVal) (res out : Obj)
        (xs ys : List JSVal),
      represent (pre ++ [r]) data options = .ok (.objV out) →
      representRules pre data options [] = .ok res →
      truthy (olookup r "merge") = true →
      resolveRule r data options = .ok (some (.arrV xs)) →
      olookup res (jsToKey (olookup r "as")) = .arrV ys →
      olookup out (jsToKey (olookup r "as")) = .arrV (ys ++ xs)) := by
  constructor
  · intro pre r data options out v h hm hres
    have hrr := represent_objV_elim h
    rw [representRules_append] at hrr
    cases hpre : representRules pre data options [] with
    | error e =>
      simp only [hpre] at hrr
      exact Except.noConfusion hrr
    | ok res1 =>
      simp only [hpre] at hrr
      rw [representRules_cons, hres] at hrr
      simp only [placeRule_nomerge r v res1 hm, representRules_nil] at hrr
      injection hrr with h2
      rw [← h2, olookup_oset, if_pos rfl]
  · intro pre r data options res out xs ys h hpre hm hres hv
    have hrr := represent_objV_elim h
    rw [representRules_append] at hrr
    simp only [hpre] at hrr
    rw [representRules_cons, hres] at hrr
    simp only [placeRule_merge_concat r xs ys res hm hv, representRules_nil] at hrr
    injection hrr with h2
    rw [← h2, olookup_oset, if_pos rfl]

/-- C2 witness: two non-merge rules aliased to `id` — the later wins;
then the spec's merge sample — `roles` and `scopes` merged under
`roles` accumulate `['admin', 'user']` in declaration order. -/
theorem rules_order_overwrite_and_merge_concat_witness :
    represent
      [[("as", JSVal.strV "id"), ("key", JSVal.strV "a")],
       [("as", JSVal.strV "id"), ("key", JSVal.strV "b")]]
      (.objV [("a", JSVal.numV 1), ("b", JSVal.numV 2)]) (.objV []) =
      .ok (.objV [("id", JSVal.numV 2)]) ∧
    olookup [("id", JSVal.numV 2)]
      (jsToKey (olookup [("as", JSVal.strV "id"), ("key", JSVal.strV "b")] "as")) =
      JSVal.numV 2 ∧
    represent
      [[("merge", JSVal.boolV true), ("as", JSVal.strV "roles"), ("key", JSVal.strV "roles")],
       [("as", JSVal.strV "roles"), ("merge", JSVal.boolV true), ("key", JSVal.strV "scopes")]]
      (.objV [("roles", JSVal.arrV [JSVal.strV "admin"]),
              ("scopes", JSVal.arrV [JSVal.strV "user"])]) (.objV []) =
      .ok (.objV [("roles", JSVal.arrV [JSVal.strV "admin", JSVal.strV "user"])]) ∧
    olookup [("roles", JSVal.arrV [JSVal.strV "admin", JSVal.strV "user"])]
      (jsToKey (olookup [("as", JSVal.strV "roles"), ("merge", JSVal.boolV true),
        ("key", JSVal.strV "scopes")] "as")) =
      JSVal.arrV ([JSVal.strV "admin"] ++ [JSVal.strV "user"]) := by
  have e1 : represent
      [[("as", JSVal.strV "id"), ("key", JSVal.strV "a")],
       [("as", JSVal.strV "id"), ("key", JSVal.strV "b")]]
      (.objV [("a", JSVal.numV 1), ("b", JSVal.numV 2)]) (.objV []) =
      .ok (.objV [("id", JSVal.numV 2)]) := by
    simp [represent, representRules, resolveRule, checkGuard, rawValue, getProp, defaulted,
      placeRule, olookup, truthy, isUndef, jsToKey, applyFn, oset]
  have e2 : represent
      [[("merge", JSVal.boolV true), ("as", JSVal.strV "roles"), ("key", JSVal.strV "roles")],
       [("as", JSVal.strV "roles"), ("merge", JSVal.boolV true), ("key", JSVal.strV "scopes")]]
      (.objV [("roles", JSVal.arrV [JSVal.strV "admin"]),
              ("scopes", JSVal.arrV [JSVal.strV "user"])]) (.objV []) =
      .ok (.objV [("roles", JSVal.arrV [JSVal.strV "admin", JSVal.strV "user"])]) := by
    simp [represent, representRules, resolveRule, checkGuard, rawValue, getProp, defaulted,
      placeRule, olookup, truthy, isUndef, jsToKey, applyFn, oset]
  refine ⟨e1, ?_, e2, ?_⟩
  · have := rules_order_overwrite_and_merge_concat.1
      [[("as", JSVal.strV "id"), ("key", JSVal.strV "a")]]
      [("as", JSVal.strV "id"), ("key", JSVal.strV "b")]
      (.objV [("a", JSVal.numV 1), ("b", JSVal.numV 2)]) (.objV [])
      [("id", JSVal.numV 2)] (JSVal.numV 2) e1 rfl
      (by simp [resolveRule, checkGuard, rawValue, getProp, defaulted, olookup, truthy,
        isUndef, jsToKey])
    exact this
  · have := rules_order_overwrite_and_merge_concat.2
      [[("merge", JSVal.boolV true), ("as", JSVal.strV "roles"), ("key", JSVal.strV "roles")]]
      [("as", JSVal.strV "roles"), ("merge", JSVal.boolV true), ("key", JSVal.strV "scopes")]
      (.objV [("roles", JSVal.arrV [JSVal.strV "admin"]),
              ("scopes", JSVal.arrV [JSVal.strV "user"])]) (.objV [])
      [("roles", JSVal.arrV [JSVal.strV "admin"])]
      [("roles", JSVal.arrV [JSVal.strV "admin", JSVal.strV "user"])]
      [JSVal.strV "user"] [JSVal.strV "admin"] e2
      (by simp [representRules, resolveRule, checkGuard, rawValue, getProp, defaulted,
        placeRule, olookup, truthy, isUndef, jsToKey, oset])
      rfl
      (by simp [resolveRule, checkGuard, rawValue, getProp, defaulted, olookup, truthy,
        isUndef, jsToKey])
      (by simp [olookup, jsToKey])
    exact this

/-! ## Claim C1 -/

/-- C1 (counterexample): a merge rule whose value resolves to an
object spreads that object's own keys into the output — here `b`,
which is not the `as` (or `key`) name of any rule of the entity.  So a
field absent from the rule list can appear in the output, refuting the
claim as stated. -/
theorem merge_spread_key_outside_rules :
    represent [[("merge", JSVal.boolV true), ("as", JSVal.strV "a"), ("key", JSVal.strV "a")]]
      (.objV [("a", .objV [("b", JSVal.numV 1)])]) (.objV []) =
      .ok (.objV [("b", JSVal.numV 1)]) ∧
    "b" ∈ okeys [("b", JSVal.numV 1)] ∧
    (∀ r ∈ [[("merge", JSVal.boolV true), ("as", JSVal.strV "a"), ("key", JSVal.strV "a")]],
      ¬ jsToKey (olookup r "as") = "b" ∧ ¬ jsToKey (olookup r "key") = "b") := by
  refine ⟨?_, ?_, ?_⟩
  · simp [represent, representRules, resolveRule, checkGuard, rawValue, getProp, defaulted,
      placeRule, olookup, truthy, isUndef, isObject, jsToKey, applyFn, oset, spreadInto,
      objEntries]
  · simp [okeys]
  · intro r hr
    simp only [List.mem_singleton] at hr
    subst hr
    exact ⟨by simp [olookup, jsToKey], by simp [olookup, jsToKey]⟩

/-- C1 (amended): for an entity none of whose rules sets `merge`,
every key of `represent`'s output object is the `as` name (in string
form) of some rule whose guard passed and whose resolved value was not
skipped; no other field ever appears.  (With `merge` set, an
object-valued rule spreads the value's own keys into the output, which
is what the counterexample exhibits.) -/
theorem represent_output_keys_from_rules (props : List Obj) (data options : JSVal)
    (out : Obj)
    (hm : ∀ r ∈ props, truthy (olookup r "merge") = false)
    (h : represent props data options = .ok (.objV out)) :
    ∀ k ∈ okeys out, ∃ r ∈ props,
      (∃ v, resolveRule r data options = .ok (some v)) ∧
      jsToKey (olookup r "as") = k := by
  have hrr := represent_objV_elim h
  intro k hk
  rcases representRules_okeys_nomerge hm hrr k hk with h1 | h2
  · simp [okeys] at h1
  · exact h2

/-- C1 witness: a two-rule merge-free entity on a record with extra
fields — the output's only keys are the rules' `as` names. -/
theorem represent_output_keys_from_rules_witness :
    (∀ r ∈ ([[("as", JSVal.strV "id"), ("key", JSVal.strV "id")],
        [("as", JSVal.strV "name"), ("key", JSVal.strV "fullName")]] : List Obj),
      truthy (olookup r "merge") = false) ∧
    represent
      [[("as", JSVal.strV "id"), ("key", JSVal.strV "id")],
       [("as", JSVal.strV "name"), ("key", JSVal.strV "fullName")]]
      (.objV [("id", JSVal.numV 7), ("fullName", JSVal.strV "A"),
              ("secret", JSVal.strV "s")]) (.objV []) =
      .ok (.objV [("id", JSVal.numV 7), ("name", JSVal.strV "A")]) ∧
    (∀ k ∈ okeys [("id", JSVal.numV 7), ("name", JSVal.strV "A")],
      ∃ r ∈ ([[("as", JSVal.strV "id"), ("key", JSVal.strV "id")],
          [("as", JSVal.strV "name"), ("key", JSVal.strV "fullName")]] : List Obj),
        (∃ v, resolveRule r (.objV [("id", JSVal.numV 7), ("fullName", JSVal.strV "A"),
            ("secret", JSVal.strV "s")]) (.objV []) = .ok (some v)) ∧
        jsToKey (olookup r "as") = k) := by
  have hm : ∀ r ∈ ([[("as", JSVal.strV "id"), ("key", JSVal.strV "id")],
      [("as", JSVal.strV "name"), ("key", JSVal.strV "fullName")]] : List Obj),
      truthy (olookup r "merge") = false := by
    intro r hr
    simp only [List.mem_cons, List.not_mem_nil, or_false] at hr
    rcases hr with rfl | rfl <;> rfl
  have h : represent
      [[("as", JSVal.strV "id"), ("key", JSVal.strV "id")],
       [("as", JSVal.strV "name"), ("key", JSVal.strV "fullName")]]
      (.objV [("id", JSVal.numV 7), ("fullName", JSVal.strV "A"),
              ("secret", JSVal.strV "s")]) (.objV []) =
      .ok (.objV [("id", JSVal.numV 7), ("name", JSVal.strV "A")]) := by
    simp [represent, representRules, resolveRule, checkGuard, rawValue, getProp, defaulted,
      placeRule, olookup, truthy, isUndef, jsToKey, applyFn, oset]
  exact ⟨hm, h, represent_output_keys_from_rules _ _ _ _ hm h⟩

/-! ## Compilation is append-only: shifting the initial rule list -/

theorem bool_eq_of_iff {a b : Bool} (h : a = true ↔ b = true) : a = b := by
  cases a <;> cases b <;> simp_all

theorem expose_shift (a b : List Obj) (p : String) (options : Obj) :
    expose (a ++ b) p options = (expose b p options).map (fun l => a ++ l) := by
  simp only [expose]
  by_cases c1 : (truthy (olookup (pick options recognizedOptions) "if") &&
      !isFunction (olookup (pick options recognizedOptions) "if")) = true
  · rw [if_pos c1, if_pos c1]
    rfl
  · rw [if_neg c1, if_neg c1]
    by_cases c2 : (truthy (olookup (pick options recognizedOptions) "using") &&
        !isEntity (olookup (pick options recognizedOptions) "using")) = true
    · rw [if_pos c2, if_pos c2]
      rfl
    · rw [if_neg c2, if_neg c2]
      simp [Except.map, List.append_assoc]

theorem compileEntry_shift (a b : List Obj) (k : String) (opts : JSVal) :
    compileEntry (a ++ b) k opts = (compileEntry b k opts).map (fun l => a ++ l) := by
  cases opts <;> simp only [compileEntry] <;>
    first
      | rfl
      | (exact expose_shift a b _ _)
      | (split <;> first | (exact expose_shift a b _ _) | rfl)

theorem compileEntries_shift (es : List (String × JSVal)) (a b : List Obj) :
    compileEntries (a ++ b) es = (compileEntries b es).map (fun l => a ++ l) := by
  induction es generalizing b with
  | nil => rfl
  | cons e rest ih =>
    obtain ⟨k, opts⟩ := e
    simp only [compileEntries]
    rw [compileEntry_shift]
    cases hce : compileEntry b k opts with
    | error e2 => rfl
    | ok props2 =>
      simp only [Except.map]
      exact ih props2

theorem compileDefinition_shift (a b : List Obj) (d : JSVal) :
    compileDefinition (a ++ b) d = (compileDefinition b d).map (fun l => a ++ l) := by
  cases d <;> first
    | rfl
    | (simp only [compileDefinition]; exact compileEntries_shift _ a b)

theorem compileDefinitions_shift (ds : List JSVal) (a b : List Obj) :
    compileDefinitions (a ++ b) ds = (compileDefinitions b ds).map (fun l => a ++ l) := by
  induction ds generalizing b with
  | nil => rfl
  | cons d rest ih =>
    simp only [compileDefinitions]
    rw [compileDefinition_shift]
    cases hcd : compileDefinition b d with
    | error e2 => rfl
    | ok props2 =>
      simp only [Except.map]
      exact ih props2

/-! ## Re-compiling a well-formed rule reproduces it -/

/-- Re-exposing a compiled, well-formed rule object (as `extend` does
through the constructor) appends a structurally equal rule. -/
theorem compileEntry_reexpose (properties : List Obj) (idx : String) {r : Obj}
    (hwf : ruleWF r = true) :
    ∃ r', compileEntry properties idx (.objV r) = .ok (properties ++ [r']) ∧
      objEquiv r' r := by
  simp only [ruleWF, Bool.and_eq_true] at hwf
  obtain ⟨⟨⟨⟨⟨⟨⟨h1, h2⟩, h3⟩, h4⟩, h5⟩, h6⟩, h7⟩, h8⟩ := hwf
  obtain ⟨p, hkey, hpne⟩ : ∃ p, olookup r "key" = .strV p ∧ p ≠ "" := by
    cases hkv : olookup r "key" with
    | strV s =>
      rw [hkv] at h1
      exact ⟨s, rfl, by simpa using h1⟩
    | undef => rw [hkv] at h1; exact absurd h1 (by simp)
    | nullV => rw [hkv] at h1; exact absurd h1 (by simp)
    | boolV bb => rw [hkv] at h1; exact absurd h1 (by simp)
    | numV n => rw [hkv] at h1; exact absurd h1 (by simp)
    | arrV xs => rw [hkv] at h1; exact absurd h1 (by simp)
    | objV fs => rw [hkv] at h1; exact absurd h1 (by simp)
    | funcV c => rw [hkv] at h1; exact absurd h1 (by simp)
    | entityV props2 => rw [hkv] at h1; exact absurd h1 (by simp)
  have hmem_allowed : ∀ k, hasKey r k = true → k ∈ allowedRuleKeys := by
    intro k hk
    have hmem := (hasKey_iff_mem_okeys r k).1 hk
    simp only [okeys, List.mem_map] at hmem
    obtain ⟨pr, hpr, hfst⟩ := hmem
    have hc := List.all_eq_true.mp h5 pr hpr
    rw [hfst] at hc
    simpa using hc
  have hif' : truthy (olookup r "if") = true → isFunction (olookup r "if") = true := by
    intro t
    simpa [t] using h6
  have husing' : truthy (olookup r "using") = true → isEntity (olookup r "using") = true := by
    intro t
    simpa [t] using h7
  have hce : compileEntry properties idx (.objV r) = expose properties p r := by
    simp only [compileEntry, getOptsKeyProp, hkey]
    rw [if_pos (by simp [truthy, hpne])]
    rfl
  rw [hce, expose_ok properties p r hif' husing']
  refine ⟨exposedRule p r, rfl, ?_, ?_⟩
  · -- same key set
    intro k
    apply bool_eq_of_iff
    rw [hasKey_exposedRule_iff]
    constructor
    · rintro (rfl | rfl | ⟨rfl, hv⟩ | ⟨hk1, hk2⟩)
      · exact h2
      · exact h3
      · rw [if_neg hv] at h8
        rw [Bool.and_eq_true] at h8
        exact h8.1
      · exact hk2
    · intro hrk
      have hall := hmem_allowed k hrk
      simp only [allowedRuleKeys, List.mem_cons, List.not_mem_nil, or_false] at hall
      rcases hall with rfl | rfl | rfl | rfl | rfl | rfl | rfl | rfl
      · exact Or.inr (Or.inl rfl)
      · exact Or.inr (Or.inr (Or.inr ⟨by simp [recognizedOptions], hrk⟩))
      · exact Or.inr (Or.inr (Or.inr ⟨by simp [recognizedOptions], hrk⟩))
      · exact Or.inr (Or.inr (Or.inr ⟨by simp [recognizedOptions], hrk⟩))
      · exact Or.inr (Or.inr (Or.inr ⟨by simp [recognizedOptions], hrk⟩))
      · exact Or.inr (Or.inr (Or.inr ⟨by simp [recognizedOptions], hrk⟩))
      · refine Or.inr (Or.inr (Or.inl ⟨rfl, ?_⟩))
        intro hv
        rw [if_pos hv] at h8
        simp [hrk] at h8
      · exact Or.inl rfl
  · -- same values
    intro k
    rw [olookup_exposedRule]
    by_cases h1k : k = "key"
    · subst h1k
      rw [if_pos rfl]
      exact hkey.symm
    · rw [if_neg h1k]
      by_cases h2k : k = "as"
      · subst h2k
        rw [if_pos rfl, if_pos h4]
      · rw [if_neg h2k]
        by_cases h3k : k = "mode"
        · subst h3k
          rw [if_pos rfl]
          by_cases hv : isUndef (olookup r "value") = true
          · rw [if_pos hv]
            rw [if_pos hv] at h8
            have hmf : hasKey r "mode" = false := by simpa using h8
            rw [olookup_of_hasKey_false hmf]
          · rw [if_neg hv]
            rw [if_neg hv] at h8
            rw [Bool.and_eq_true] at h8
            obtain ⟨hkm, hmm⟩ := h8
            cases hmv : olookup r "mode" <;> rw [hmv] at hmm <;> simp_all
        · rw [if_neg h3k]
          by_cases h4k : k ∈ recognizedOptions
          · rw [if_pos h4k]
          · rw [if_neg h4k]
            have hfk : hasKey r k = false := by
              cases hfk : hasKey r k
              · rfl
              · exfalso
                have hall := hmem_allowed k hfk
                simp only [allowedRuleKeys, List.mem_cons, List.not_mem_nil, or_false] at hall
                rcases hall with rfl | rfl | rfl | rfl | rfl | rfl | rfl | rfl <;>
                  simp_all [recognizedOptions]
            rw [olookup_of_hasKey_false hfk]

/-- Re-exposing a whole list of well-formed rule objects, one entry at
a time, appends structurally equal copies in order. -/
theorem compileEntries_reexpose_all {es : List (String × JSVal)} {rules : List Obj}
    (hrel : List.Forall₂ (fun e r => e.2 = JSVal.objV r ∧ ruleWF r = true) es rules)
    (properties : List Obj) :
    ∃ rules', compileEntries properties es = .ok (properties ++ rules') ∧
      List.Forall₂ objEquiv rules' rules := by
  induction hrel generalizing properties with
  | nil => exact ⟨[], by simp [compileEntries], List.Forall₂.nil⟩
  | @cons e r es' rules0 hpair hrest ih =>
    obtain ⟨k, v⟩ := e
    obtain ⟨heq, hwfr⟩ := hpair
    simp only at heq
    subst heq
    obtain ⟨r', hce, hequiv⟩ := compileEntry_reexpose properties k hwfr
    obtain ⟨rules'', hrec, hfa⟩ := ih (properties ++ [r'])
    refine ⟨r' :: rules'', ?_, List.Forall₂.cons hequiv hfa⟩
    simp only [compileEntries]
    rw [hce]
    show compileEntries (properties ++ [r']) es' = _
    rw [hrec]
    simp

/-- The constructor's enumeration of a passed-in `properties` array,
related index-wise to the original rules. -/
theorem defEntries_arr_rel (pa : List Obj) (hwf : ∀ r ∈ pa, ruleWF r = true) :
    List.Forall₂ (fun e r => e.2 = JSVal.objV r ∧ ruleWF r = true)
      (defEntries (.arrV (pa.map .objV))) pa := by
  have key : ∀ (l : List Obj), (∀ r ∈ l, ruleWF r = true) → ∀ (ns : List Nat),
      List.Forall₂ (fun e r => e.2 = JSVal.objV r ∧ ruleWF r = true)
        ((ns.zip (l.map .objV)).map (fun q => (toString q.1, q.2))) l ∨
      ns.length < l.length := by
    intro l
    induction l with
    | nil =>
      intro _ ns
      left
      simp
    | cons r rest ih =>
      intro hwf2 ns
      cases ns with
      | nil =>
        right
        simp
      | cons n ns' =>
        rcases ih (fun r hr => hwf2 r (List.mem_cons_of_mem _ hr)) ns' with hok | hlt
        · left
          rw [List.map_cons, List.zip_cons_cons, List.map_cons]
          exact List.Forall₂.cons ⟨rfl, hwf2 r (List.mem_cons_self _ _)⟩ hok
        · right
          simpa using Nat.succ_lt_succ hlt
  simp only [defEntries]
  rcases key pa hwf (List.range (pa.map JSVal.objV).length) with hok | hlt
  · exact hok
  · simp at hlt

/-! ## Claim C9 -/

/-- C9 (counterexample): the empty string is a legal declaration key
but is falsy, so `extend` re-compiles the parent's rule under the
array index `"0"` instead (`opts.key || key` at src/index.js line 45):
the extended entity's first rule is not equal to the parent's — its
source `key` (and `as`) changed from `""` to `"0"`. -/
theorem extend_empty_key_not_preserved :
    newEntity [.objV [("", JSVal.boolV true)]] =
      .ok [[("as", JSVal.strV ""), ("key", JSVal.strV "")]] ∧
    extend [[("as", JSVal.strV ""), ("key", JSVal.strV "")]] [] =
      .ok [[("as", JSVal.strV "0"), ("key", JSVal.strV "0")]] ∧
    ¬ olookup [("as", JSVal.strV "0"), ("key", JSVal.strV "0")] "key" =
      olookup [("as", JSVal.strV ""), ("key", JSVal.strV "")] "key" := by
  refine ⟨rfl, rfl, ?_⟩
  simp [olookup]

/-- C9 (amended): for an entity `A` all of whose compiled rules have a
truthy key — as produced whenever declarations use nonempty property
names — `B = A.extend(D)` yields a rule list that is `A`'s compiled
rules, in order and each structurally equal as a JS object (`objEquiv`:
same own keys and values; JS object equality does not see insertion
order), followed by exactly the rules compiled from `D` alone.  The
receiver is never mutated: the source constructor only reads the
parent's array, which in this pure model is immediate. -/
theorem extend_appends_preserving_rules (pa : List Obj) (defs : List JSVal)
    (pb : List Obj)
    (hwf : ∀ r ∈ pa, ruleWF r = true)
    (h : extend pa defs = .ok pb) :
    ∃ pre post, pb = pre ++ post ∧ pre.length = pa.length ∧
      List.Forall₂ objEquiv pre pa ∧ newEntity defs = .ok post := by
  unfold extend newEntity at h
  simp only [compileDefinitions] at h
  have hrel := defEntries_arr_rel pa hwf
  obtain ⟨pre, hce, hfa⟩ := compileEntries_reexpose_all hrel []
  have hcd : compileDefinition [] (.arrV (pa.map .objV)) = .ok pre := by
    simp only [compileDefinition]
    rw [hce]
    simp
  rw [hcd] at h
  have h2 : compileDefinitions pre defs = .ok pb := h
  have hshift := compileDefinitions_shift defs pre []
  rw [List.append_nil] at hshift
  rw [hshift] at h2
  cases hnd : compileDefinitions [] defs with
  | error e =>
    rw [hnd] at h2
    exact Except.noConfusion h2
  | ok post =>
    rw [hnd] at h2
    simp only [Except.map] at h2
    injection h2 with h3
    exact ⟨pre, post, h3.symm, List.Forall₂.length_eq hfa, hfa, hnd⟩

/-- C9 witness: a two-rule entity (one aliased) extended with one new
declaration. -/
theorem extend_appends_preserving_rules_witness :
    (∀ r ∈ ([[("as", JSVal.strV "id"), ("key", JSVal.strV "id")],
        [("as", JSVal.strV "fullName"), ("key", JSVal.strV "name")]] : List Obj),
      ruleWF r = true) ∧
    extend
      [[("as", JSVal.strV "id"), ("key", JSVal.strV "id")],
       [("as", JSVal.strV "fullName"), ("key", JSVal.strV "name")]]
      [.objV [("extra", JSVal.boolV true)]] =
      .ok [[("as", JSVal.strV "id"), ("key", JSVal.strV "id")],
           [("as", JSVal.strV "fullName"), ("key", JSVal.strV "name")],
           [("as", JSVal.strV "extra"), ("key", JSVal.strV "extra")]] ∧
    (∃ pre post,
      ([[("as", JSVal.strV "id"), ("key", JSVal.strV "id")],
        [("as", JSVal.strV "fullName"), ("key", JSVal.strV "name")],
        [("as", JSVal.strV "extra"), ("key", JSVal.strV "extra")]] : List Obj) =
        pre ++ post ∧
      pre.length = ([[("as", JSVal.strV "id"), ("key", JSVal.strV "id")],
        [("as", JSVal.strV "fullName"), ("key", JSVal.strV "name")]] : List Obj).length ∧
      List.Forall₂ objEquiv pre
        [[("as", JSVal.strV "id"), ("key", JSVal.strV "id")],
         [("as", JSVal.strV "fullName"), ("key", JSVal.strV "name")]] ∧
      newEntity [.objV [("extra", JSVal.boolV true)]] = .ok post) := by
  have hwf : ∀ r ∈ ([[("as", JSVal.strV "id"), ("key", JSVal.strV "id")],
      [("as", JSVal.strV "fullName"), ("key", JSVal.strV "name")]] : List Obj),
      ruleWF r = true := by decide
  exact ⟨hwf, rfl, extend_appends_preserving_rules _ _ _ hwf rfl⟩

end JsonEntity
